import Mathlib

/-
Verification of the notification composables (packages/components/notification).

The development shallowly embeds the interval-based `useTimer` and the
promise-aware action pipeline (`useActions` / `makeActionButton`) from
src/packages/components/notification/src/composables.ts (third variant,
lines 353-545, which the claims cite), together with the alternative
`useActions` wrapper from src/unnamed/part_002.

Modelling conventions:
- JS numbers are rationals (no overflow is involved; the only literal with a
  fractional part is 16.7, kept exact as 167/10).
- The vueuse interval from `useIntervalFn` is modelled by an explicit state
  machine: `initState` is the state right after `useTimer` ran (the ref
  `remaining` holds the initial duration, no interval exists yet) and `stepT`
  interprets each externally triggered operation.  A `tick` event is one firing
  of the interval callback; it has an effect only while an interval has been
  created by `init` and is not paused.  `useIntervalFn` is called without
  options, so the interval starts running immediately when created.
- The Vue `watch` on the duration input is modelled by the `setDuration`
  operation, which performs the watcher body (remaining := new duration).
-/

namespace Notification

/-- The timerControls prop: `pause-resume` (default) or `reset-restart`. -/
inductive TimerControls
  | pauseResume
  | resetRestart
deriving DecidableEq, Repr

/-- `MAGIC_NUMBER` of the interval-based `useTimer`:
`clamp(duration / 16.7, 10, 100)`, where vueuse `clamp(n, min, max)` is
`Math.min(max, Math.max(min, n))`. -/
def magic (d : ℚ) : ℚ := min 100 (max 10 (d / (167 / 10)))

/-- State of one `useTimer` instance together with its duration input.
`created` records that `initialize` has created the interval (`interval !==
undefined`), `active` that the interval is not paused, `ended` that the
`onEnd` callback has fired (the lifecycle controller wires `onEnd` to closing
the notification). -/
structure TState where
  duration : ℚ
  mode : TimerControls
  remaining : ℚ
  created : Bool
  active : Bool
  ended : Bool
deriving DecidableEq, Repr

/-- State right after `useTimer(duration, timerControls, onEnd)` ran:
`remaining = ref(toValue(duration))`, no interval yet. -/
def initState (d : ℚ) (m : TimerControls) : TState :=
  { duration := d, mode := m, remaining := d, created := false
    active := false, ended := false }

/-- Operations on the timer. `init` is the `initialize()` method of the
interval-based `useTimer`; `tick` is one firing of the interval callback;
`setDuration` is a change of the reactive duration input, whose watcher
sets `remaining` to the new value. -/
inductive TOp
  | init
  | tick
  | pauseOrReset
  | resumeOrRestart
  | cleanup
  | setDuration (d : ℚ)
deriving DecidableEq

/-- Whether an operation is a duration change. -/
def TOp.isSetDuration : TOp → Bool
  | .setDuration _ => true
  | _ => false

/-- One step of the timer, translated from the interval-based `useTimer`
(composables.ts lines 379-427; src/unnamed/part_002 lines 26-74 is the same
code):
- `initialize`: `if (!(duration > 0)) return` else create the interval
  (running immediately);
- interval callback: `remaining -= MAGIC_NUMBER; if (remaining <= 0) {
  interval.pause(); onEnd() }`;
- `pauseOrReset`: `if (!interval) return`; in reset-restart mode
  `remaining = duration`; then `interval.pause()`;
- `resumeOrRestart`: `if (!interval) return; interval.resume()`;
- `cleanup`: `if (!interval) return; interval.pause()`;
- duration watcher: `remaining = newDuration`. -/
def stepT (s : TState) : TOp → TState
  | .init =>
      if 0 < s.duration then { s with created := true, active := true } else s
  | .tick =>
      if s.created ∧ s.active then
        let r := s.remaining - magic s.duration
        if r ≤ 0 then { s with remaining := r, active := false, ended := true }
        else { s with remaining := r }
      else s
  | .pauseOrReset =>
      if s.created then
        if s.mode = .resetRestart then
          { s with remaining := s.duration, active := false }
        else { s with active := false }
      else s
  | .resumeOrRestart =>
      if s.created then { s with active := true } else s
  | .cleanup =>
      if s.created then { s with active := false } else s
  | .setDuration d => { s with duration := d, remaining := d }

/-- Run a sequence of timer operations. -/
def runT (s : TState) (ops : List TOp) : TState := ops.foldl stepT s

lemma runT_append (s : TState) (l₁ l₂ : List TOp) :
    runT s (l₁ ++ l₂) = runT (runT s l₁) l₂ :=
  List.foldl_append ..

lemma magic_ge_ten (d : ℚ) : 10 ≤ magic d :=
  le_min (by norm_num) (le_max_left _ _)

lemma magic_pos (d : ℚ) : 0 < magic d :=
  lt_of_lt_of_le (by norm_num) (magic_ge_ten d)

/-- With a non-positive duration nothing is ever scheduled: the invariant that
carries claim C4 through every operation that is not a duration change. -/
lemma step_nonpos_invariant (s : TState) (op : TOp)
    (hd : s.duration ≤ 0) (hc : s.created = false) (he : s.ended = false)
    (hop : op.isSetDuration = false) :
    (stepT s op).duration ≤ 0 ∧ (stepT s op).created = false ∧
      (stepT s op).ended = false := by
  cases op with
  | init =>
      simp only [stepT]
      rw [if_neg (by exact not_lt.mpr hd)]
      exact ⟨hd, hc, he⟩
  | tick =>
      simp only [stepT, hc]
      simp [hd, hc, he]
  | pauseOrReset =>
      simp only [stepT, hc]
      simp [hd, hc, he]
  | resumeOrRestart =>
      simp only [stepT, hc]
      simp [hd, hc, he]
  | cleanup =>
      simp only [stepT, hc]
      simp [hd, hc, he]
  | setDuration d => simp [TOp.isSetDuration] at hop

lemma runT_nonpos_invariant (ops : List TOp) :
    ∀ s : TState, s.duration ≤ 0 → s.created = false → s.ended = false →
    (∀ op ∈ ops, op.isSetDuration = false) →
    (runT s ops).duration ≤ 0 ∧ (runT s ops).created = false ∧
      (runT s ops).ended = false := by
  induction ops with
  | nil => intro s hd hc he _; exact ⟨hd, hc, he⟩
  | cons op rest ih =>
      intro s hd hc he hops
      have hop : op.isSetDuration = false := hops op (List.mem_cons_self ..)
      obtain ⟨hd', hc', he'⟩ := step_nonpos_invariant s op hd hc he hop
      have := ih (stepT s op) hd' hc' he'
        (fun o ho => hops o (List.mem_cons_of_mem _ ho))
      simpa [runT] using this

/-- C4: for every duration ≤ 0 and every timerControls mode, `initialize()`
never schedules a countdown (no interval is ever created) and the timer never
fires its end callback, whatever sequence of timer operations and elapsed
ticks occurs (the duration input itself not being changed). -/
theorem timer_nonpositive_duration_never_closes
    (d : ℚ) (m : TimerControls) (ops : List TOp)
    (hd : d ≤ 0) (hops : ∀ op ∈ ops, op.isSetDuration = false) :
    (runT (initState d m) ops).created = false ∧
      (runT (initState d m) ops).ended = false := by
  have h := runT_nonpos_invariant ops (initState d m) hd rfl rfl hops
  exact ⟨h.2.1, h.2.2⟩

/-- Witness for C4: duration 0 and duration -5, with a run containing
initialize, many ticks, pause, resume and cleanup, leave the timer
unscheduled and the end callback unfired. -/
theorem timer_nonpositive_duration_never_closes_witness :
    (runT (initState 0 .pauseResume)
      [.init, .tick, .tick, .pauseOrReset, .resumeOrRestart, .tick,
        .cleanup, .tick]).created = false ∧
    (runT (initState 0 .pauseResume)
      [.init, .tick, .tick, .pauseOrReset, .resumeOrRestart, .tick,
        .cleanup, .tick]).ended = false :=
  timer_nonpositive_duration_never_closes 0 .pauseResume
    [.init, .tick, .tick, .pauseOrReset, .resumeOrRestart, .tick,
      .cleanup, .tick]
    (by norm_num) (by decide)


lemma run_ticks (d : ℚ) (m : TimerControls) (k : ℕ)
    (hk : (k : ℚ) * magic d < d) :
    runT (initState d m) (TOp.init :: List.replicate k .tick)
      = { duration := d, mode := m, remaining := d - k * magic d
          created := true, active := true, ended := false } := by
  induction k with
  | zero =>
      have hd : 0 < d := by simpa using hk
      simp [runT, initState, stepT, hd]
  | succ k ih =>
      have hmag := magic_pos d
      have hexp : ((k : ℚ) + 1) * magic d = (k : ℚ) * magic d + magic d := by
        ring
      push_cast at hk
      rw [hexp] at hk
      have hk' : (k : ℚ) * magic d < d := by linarith
      have hpos : ¬ (d - (k : ℚ) * magic d - magic d ≤ 0) := by
        intro h
        linarith
      have hrepl : TOp.init :: List.replicate (k + 1) TOp.tick
          = (TOp.init :: List.replicate k TOp.tick) ++ [TOp.tick] := by
        rw [List.replicate_succ']
        simp
      rw [hrepl, runT_append, ih hk']
      simp only [runT, List.foldl_cons, List.foldl_nil]
      simp [stepT, hpos, TState.mk.injEq]
      ring

/-- C2: with timerControls pause-resume and a positive duration, pausing the
countdown after an elapsed time t = k ticks with t < duration and then
resuming without additional elapsed time leaves remaining = duration - t:
no time is lost or gained across the pause and resume cycle. -/
theorem timer_pause_resume_preserves_remaining
    (d : ℚ) (k : ℕ) (hk : (k : ℚ) * magic d < d) :
    (runT (initState d .pauseResume)
        (TOp.init :: List.replicate k .tick)).remaining = d - k * magic d ∧
    (runT (initState d .pauseResume)
        ((TOp.init :: List.replicate k .tick)
          ++ [.pauseOrReset, .resumeOrRestart])).remaining
      = d - k * magic d := by
  constructor
  · rw [run_ticks d .pauseResume k hk]
  · rw [runT_append, run_ticks d .pauseResume k hk]
    simp [runT, stepT]

/-- Witness for C2: duration 100, pausing after 5 ticks (50 ms elapsed, since
magic 100 = 10) and resuming leaves remaining = 50. -/
theorem timer_pause_resume_preserves_remaining_witness :
    (runT (initState 100 .pauseResume)
        (TOp.init :: List.replicate 5 .tick)).remaining = 100 - 5 * magic 100 ∧
    (runT (initState 100 .pauseResume)
        ((TOp.init :: List.replicate 5 .tick)
          ++ [.pauseOrReset, .resumeOrRestart])).remaining
      = 100 - 5 * magic 100 :=
  timer_pause_resume_preserves_remaining 100 5 (by norm_num [magic])

/-- C3: in reset-restart mode, `pauseOrReset` on a scheduled timer resets
remaining to the full duration at the moment of pausing; and the concrete
scenario: mount with duration 100 (tick size magic 100 = 10 ms), advance
50 ms, mouse-enter then mouse-leave, advance 50 ms: the notification is still
open with remaining 50; a further 100 ms closes it. -/
theorem timer_reset_restart_restarts_full_duration :
    (∀ s : TState, s.created = true → s.mode = .resetRestart →
        (stepT s .pauseOrReset).remaining = s.duration) ∧
    (runT (initState 100 .resetRestart)
        ((TOp.init :: List.replicate 5 .tick)
          ++ [.pauseOrReset, .resumeOrRestart]
          ++ List.replicate 5 .tick)).ended = false ∧
    (runT (initState 100 .resetRestart)
        ((TOp.init :: List.replicate 5 .tick)
          ++ [.pauseOrReset, .resumeOrRestart]
          ++ List.replicate 5 .tick)).remaining = 50 ∧
    (runT (initState 100 .resetRestart)
        ((TOp.init :: List.replicate 5 .tick)
          ++ [.pauseOrReset, .resumeOrRestart]
          ++ List.replicate 5 .tick ++ List.replicate 10 .tick)).ended
      = true := by
  refine ⟨?_, ?_, ?_, ?_⟩
  · intro s hc hm
    simp [stepT, hc, hm]
  · norm_num [runT, stepT, magic, initState, List.replicate]
  · norm_num [runT, stepT, magic, initState, List.replicate]
  · norm_num [runT, stepT, magic, initState, List.replicate]

/-- Witness for C3: the general reset conjunct applied to a concrete
scheduled reset-restart state with duration 100 and remaining 70. -/
theorem timer_reset_restart_restarts_full_duration_witness :
    (stepT ⟨100, .resetRestart, 70, true, true, false⟩ .pauseOrReset).remaining
      = (100 : ℚ) :=
  timer_reset_restart_restarts_full_duration.1
    ⟨100, .resetRestart, 70, true, true, false⟩ rfl rfl


/-- C8 counterexample: after `cleanup()` the lifecycle operations are not
all no-ops.  First, `resumeOrRestart()` after `cleanup()` changes the state
(it resumes the paused interval), and the resumed countdown then fires the
interval callback until the end callback runs - a pending callback is able to
fire after `cleanup()` once `resumeOrRestart` is called.  Second, in
reset-restart mode `pauseOrReset()` after `cleanup()` is not a no-op either:
on a cleaned-up timer with duration 100 and remaining 50 it mutates remaining
back to 100 (observable through the progress bar width). -/
theorem timer_cleanup_then_resume_counterexample :
    stepT (runT (initState 100 .pauseResume) [.init, .cleanup])
        .resumeOrRestart
      ≠ runT (initState 100 .pauseResume) [.init, .cleanup] ∧
    (runT (initState 100 .pauseResume)
        ([.init, .cleanup, .resumeOrRestart]
          ++ List.replicate 10 .tick)).ended = true ∧
    (runT (initState 100 .resetRestart)
        ((TOp.init :: List.replicate 5 .tick) ++ [.cleanup])).remaining = 50 ∧
    (stepT (runT (initState 100 .resetRestart)
        ((TOp.init :: List.replicate 5 .tick) ++ [.cleanup]))
        .pauseOrReset).remaining = 100 := by
  refine ⟨?_, ?_, ?_, ?_⟩ <;>
    norm_num [runT, stepT, magic, initState, List.replicate, TState.mk.injEq]

/-- After `cleanup()` the timer is paused whenever an interval exists, and a
paused (or never-created) interval stays paused under every operation other
than `initialize` and `resumeOrRestart`; no such operation fires the end
callback. -/
lemma step_paused_invariant (s : TState) (op : TOp)
    (hp : s.created = true → s.active = false)
    (hop : op ≠ TOp.init ∧ op ≠ TOp.resumeOrRestart) :
    ((stepT s op).created = true → (stepT s op).active = false) ∧
      (stepT s op).ended = s.ended := by
  cases op with
  | init => exact absurd rfl hop.1
  | resumeOrRestart => exact absurd rfl hop.2
  | tick =>
      by_cases hc : s.created = true
      · have ha := hp hc
        simp [stepT, hc, ha]
      · simp [stepT, hc]
  | pauseOrReset =>
      by_cases hc : s.created = true
      · by_cases hm : s.mode = .resetRestart <;> simp [stepT, hc, hm]
      · simp [stepT, hc, hp]
  | cleanup =>
      by_cases hc : s.created = true <;> simp [stepT, hc, hp]
  | setDuration d => exact ⟨hp, rfl⟩

lemma runT_paused_invariant (ops : List TOp) :
    ∀ s : TState, (s.created = true → s.active = false) →
      (∀ op ∈ ops, op ≠ TOp.init ∧ op ≠ TOp.resumeOrRestart) →
      ((runT s ops).created = true → (runT s ops).active = false) ∧
        (runT s ops).ended = s.ended := by
  induction ops with
  | nil => intro s hp _; exact ⟨hp, rfl⟩
  | cons op rest ih =>
      intro s hp hops
      have hop := hops op (List.mem_cons_self ..)
      obtain ⟨hp', he'⟩ := step_paused_invariant s op hp hop
      have h := ih (stepT s op) hp'
        (fun o ho => hops o (List.mem_cons_of_mem _ ho))
      refine ⟨?_, ?_⟩
      · simpa [runT, List.foldl_cons] using h.1
      · have h2 := h.2
        simp only [runT, List.foldl_cons] at h2 ⊢
        rw [h2, he']

lemma cleanup_paused (s : TState) :
    (stepT s .cleanup).created = true → (stepT s .cleanup).active = false := by
  by_cases hc : s.created = true <;> simp [stepT, hc]

/-- C8 amended: before `initialize()` the three lifecycle operations
`pauseOrReset`, `resumeOrRestart` and `cleanup` are exact no-ops (and, the
source functions consisting only of a guard-and-return plus vueuse interval
calls, none of them can throw, before or after `cleanup`); `cleanup()` is
idempotent; after `cleanup()`, `pauseOrReset` in pause-resume mode is still a
no-op; and after `cleanup()` no interval callback can fire - the countdown
stays paused and the end callback cannot run - for as long as neither
`initialize` nor `resumeOrRestart` is called again.  However `resumeOrRestart`
after `cleanup` resumes the countdown, and `pauseOrReset` after `cleanup` in
reset-restart mode still resets remaining to the full duration: those two are
not no-ops (see the counterexample). -/
theorem timer_lifecycle_ops_amended :
    (∀ (d : ℚ) (m : TimerControls),
        stepT (initState d m) .pauseOrReset = initState d m ∧
        stepT (initState d m) .resumeOrRestart = initState d m ∧
        stepT (initState d m) .cleanup = initState d m) ∧
    (∀ s : TState, stepT (stepT s .cleanup) .cleanup = stepT s .cleanup) ∧
    (∀ s : TState, s.mode = .pauseResume →
        stepT (stepT s .cleanup) .pauseOrReset = stepT s .cleanup) ∧
    (∀ (s : TState) (ops : List TOp),
        (∀ op ∈ ops, op ≠ TOp.init ∧ op ≠ TOp.resumeOrRestart) →
        ((runT (stepT s .cleanup) ops).created = true →
          (runT (stepT s .cleanup) ops).active = false) ∧
        (runT (stepT s .cleanup) ops).ended = (stepT s .cleanup).ended) := by
  refine ⟨?_, ?_, ?_, ?_⟩
  · intro d m
    refine ⟨?_, ?_, ?_⟩ <;> simp [stepT, initState]
  · intro s
    by_cases hc : s.created = true <;> simp [stepT, hc]
  · intro s hm
    by_cases hc : s.created = true <;> simp [stepT, hc, hm]
  · intro s ops hops
    exact runT_paused_invariant ops (stepT s .cleanup) (cleanup_paused s) hops

/-- Witness for the amended C8: on a cleaned-up pause-resume timer with
duration 100 and remaining 40, `pauseOrReset` is a no-op, and a subsequent
burst of ticks, pauses and cleanups leaves the interval paused with the end
callback unfired. -/
theorem timer_lifecycle_ops_amended_witness :
    stepT (stepT ⟨100, .pauseResume, 40, true, true, false⟩ .cleanup)
        .pauseOrReset
      = stepT ⟨100, .pauseResume, 40, true, true, false⟩ .cleanup ∧
    ((runT (stepT ⟨100, .pauseResume, 40, true, true, false⟩ .cleanup)
        [.tick, .pauseOrReset, .tick, .cleanup, .tick]).created = true →
      (runT (stepT ⟨100, .pauseResume, 40, true, true, false⟩ .cleanup)
        [.tick, .pauseOrReset, .tick, .cleanup, .tick]).active = false) ∧
    (runT (stepT ⟨100, .pauseResume, 40, true, true, false⟩ .cleanup)
        [.tick, .pauseOrReset, .tick, .cleanup, .tick]).ended
      = (stepT ⟨100, .pauseResume, 40, true, true, false⟩ .cleanup).ended :=
  ⟨timer_lifecycle_ops_amended.2.2.1 _ rfl,
    (timer_lifecycle_ops_amended.2.2.2 _ _ (by decide)).1,
    (timer_lifecycle_ops_amended.2.2.2 _ _ (by decide)).2⟩

/-- C9 counterexample: remaining is not always within the interval
[0, duration].  With duration 105 the tick size is magic 105 = 10, and after
initialize plus 11 interval callbacks the run has ended with
remaining = -5 < 0 (the final tick overshoots below zero because 105 is not a
multiple of the tick size). -/
theorem timer_remaining_below_zero_counterexample :
    (runT (initState 105 .pauseResume)
        (TOp.init :: List.replicate 11 .tick)).remaining = -5 ∧
    (runT (initState 105 .pauseResume)
        (TOp.init :: List.replicate 11 .tick)).ended = true ∧
    ¬ (0 ≤ (runT (initState 105 .pauseResume)
        (TOp.init :: List.replicate 11 .tick)).remaining) := by
  refine ⟨?_, ?_, ?_⟩ <;>
    norm_num [runT, stepT, magic, initState, List.replicate]

lemma step_remaining_le_duration (s : TState) (op : TOp)
    (h : s.remaining ≤ s.duration) :
    (stepT s op).remaining ≤ (stepT s op).duration := by
  cases op with
  | init =>
      simp only [stepT]
      by_cases hd : 0 < s.duration <;> simp [hd, h]
  | tick =>
      simp only [stepT]
      split
      · have hmag := magic_pos s.duration
        by_cases hr : s.remaining - magic s.duration ≤ 0 <;>
          simp [hr] <;> linarith
      · exact h
  | pauseOrReset =>
      simp only [stepT]
      by_cases hc : s.created = true
      · by_cases hm : s.mode = .resetRestart <;> simp [hc, hm, h]
      · simp [hc, h]
  | resumeOrRestart =>
      simp only [stepT]
      by_cases hc : s.created = true <;> simp [hc, h]
  | cleanup =>
      simp only [stepT]
      by_cases hc : s.created = true <;> simp [hc, h]
  | setDuration d => simp [stepT]

/-- C9 amended: the remaining value never exceeds the current duration, and a
change of the duration input immediately resets remaining to the new
duration; remaining is, however, not bounded below by 0 (the final tick may
overshoot, see the counterexample). -/
theorem timer_remaining_le_duration_amended :
    (∀ (d : ℚ) (m : TimerControls) (ops : List TOp),
        (runT (initState d m) ops).remaining
          ≤ (runT (initState d m) ops).duration) ∧
    (∀ (s : TState) (q : ℚ), (stepT s (.setDuration q)).remaining = q) := by
  constructor
  · intro d m ops
    have h : ∀ (l : List TOp) (s : TState), s.remaining ≤ s.duration →
        (runT s l).remaining ≤ (runT s l).duration := by
      intro l
      induction l with
      | nil => intro s hs; exact hs
      | cons op rest ih =>
          intro s hs
          have := ih (stepT s op) (step_remaining_le_duration s op hs)
          simpa [runT] using this
    exact h ops (initState d m) le_rfl
  · intro s q
    simp [stepT]


/-!  Action execution policy.

`makeActionButton` (composables.ts lines 488-521) destructures the action as

  const { keepOpen = false,
          disableWhilePending = keepOpen === until-resolved,
          execute } = action

and installs this click handler on the button props:

  async onClick() {
    try {
      button.disableIfNeeded()
      const maybePromise = execute()
      if (keepOpen === until-resolved) await maybePromise
    } finally {
      button.enableIfNeeded()
      if (keepOpen !== true) closeNotification()
    }
  }

We model one activation as the ordered list of observable events the handler
produces, plus whether the handler itself completes with an exception (the
async function returning a rejected promise).  `disableIfNeeded` and
`enableIfNeeded` mutate the disabled prop only for a `ReactiveActionButton`
(that is, when the resolved disableWhilePending flag is true); for a
`NoopActionButton` they do nothing, so no disable/enable event occurs. -/

/-- The keepOpen policy of an action: false (also the default and any
unrecognized value, since the code only compares against `true` and
`until-resolved`), true, or until-resolved. -/
inductive KeepOpen
  | kFalse
  | kTrue
  | kUntilResolved
deriving DecidableEq, Fintype, Repr

/-- How a call to the caller-supplied `execute()` behaves: it may throw
synchronously, return an immediately available non-promise value, or return a
promise that later resolves or rejects. -/
inductive ExecBehavior
  | throwsSync
  | retUnit
  | promiseResolves
  | promiseRejects
deriving DecidableEq, Fintype, Repr

/-- Observable events of one activation: the button is disabled, `execute` is
invoked, the awaited result settles, the button is re-enabled, the
notification is closed via the lifecycle controller `close()`. -/
inductive Ev
  | disable
  | exec
  | settled
  | enable
  | close
deriving DecidableEq, Repr

/-- The event trace of one activation of the `onClick` handler built by
`makeActionButton`, given the resolved disableWhilePending flag `dwp`, the
keepOpen policy and the behavior of `execute()`; the Bool is true when the
handler completes with an exception (its returned promise rejects).
The `try` body runs `disableIfNeeded`, then `execute()`; only under
keepOpen = until-resolved is the returned value awaited (the `settled` event;
awaiting a non-promise value settles immediately).  The `finally` block
always runs `enableIfNeeded` and then, unless keepOpen is exactly true,
`closeNotification()`. -/
def onClickTrace (dwp : Bool) (ko : KeepOpen) (b : ExecBehavior) :
    List Ev × Bool :=
  let pre := if dwp then [Ev.disable] else []
  let mid : List Ev × Bool :=
    match b with
    | .throwsSync => ([Ev.exec], true)
    | .retUnit =>
        ([Ev.exec] ++ (if ko = .kUntilResolved then [Ev.settled] else []),
          false)
    | .promiseResolves =>
        ([Ev.exec] ++ (if ko = .kUntilResolved then [Ev.settled] else []),
          false)
    | .promiseRejects =>
        ([Ev.exec] ++ (if ko = .kUntilResolved then [Ev.settled] else []),
          ko = .kUntilResolved)
  let fin := (if dwp then [Ev.enable] else [])
    ++ (if ko ≠ .kTrue then [Ev.close] else [])
  (pre ++ mid.1 ++ fin, mid.2)

/-- The event trace of one activation under the alternative `useActions` of
src/unnamed/part_002 (lines 111-127), which wraps `execute` without
try/finally:
- falsy keepOpen: `() => { action.execute(); closeNotification() }`
  (synchronous; a throw propagates and skips the close);
- keepOpen = until-resolved: `async () => { await action.execute();
  closeNotification() }` (a synchronous throw or a rejection skips the
  close and rejects the wrapper promise);
- keepOpen = true: the raw `action.execute` itself. -/
def wrapTrace (ko : KeepOpen) (b : ExecBehavior) : List Ev × Bool :=
  match ko with
  | .kFalse =>
      match b with
      | .throwsSync => ([Ev.exec], true)
      | _ => ([Ev.exec, Ev.close], false)
  | .kUntilResolved =>
      match b with
      | .throwsSync => ([Ev.exec], true)
      | .promiseRejects => ([Ev.exec, Ev.settled], true)
      | _ => ([Ev.exec, Ev.settled, Ev.close], false)
  | .kTrue => ([Ev.exec], b = .throwsSync)

/-- C1: for every activation of a rendered action button: if keepOpen is not
exactly true, the handler closes the notification via the lifecycle
controller `close()` as its final step; under keepOpen = until-resolved with
a result to await, the close happens only after the awaited result settles,
never before; and if keepOpen is exactly true the handler never closes the
notification and, if the button was disabled for the call, re-enables it. -/
theorem action_keep_open_close_policy :
    ∀ (dwp : Bool) (ko : KeepOpen) (b : ExecBehavior),
      (ko ≠ .kTrue → (onClickTrace dwp ko b).1.getLast? = some .close) ∧
      (ko = .kUntilResolved → b ≠ .throwsSync →
        Ev.settled ∈ (onClickTrace dwp ko b).1 ∧
        Ev.close ∈ (onClickTrace dwp ko b).1 ∧
        (onClickTrace dwp ko b).1.indexOf .settled
          < (onClickTrace dwp ko b).1.indexOf .close) ∧
      (ko = .kTrue → Ev.close ∉ (onClickTrace dwp ko b).1 ∧
        (Ev.disable ∈ (onClickTrace dwp ko b).1 →
          Ev.enable ∈ (onClickTrace dwp ko b).1)) := by
  intro dwp ko b
  cases dwp <;> cases ko <;> cases b <;> decide

/-- Witness for C1: a disabling until-resolved action with a resolving
promise ends with close, and close comes only after the result settles; a
keepOpen = true action never closes and re-enables. -/
theorem action_keep_open_close_policy_witness :
    (onClickTrace true .kUntilResolved .promiseResolves).1.getLast?
        = some .close ∧
    (onClickTrace true .kUntilResolved .promiseResolves).1.indexOf .settled
        < (onClickTrace true .kUntilResolved .promiseResolves).1.indexOf
            .close ∧
    Ev.close ∉ (onClickTrace true .kTrue .retUnit).1 :=
  ⟨(action_keep_open_close_policy true .kUntilResolved .promiseResolves).1
      (by decide),
    ((action_keep_open_close_policy true .kUntilResolved
        .promiseResolves).2.1 rfl (by decide)).2.2,
    ((action_keep_open_close_policy true .kTrue .retUnit).2.2 rfl).1⟩

/-- C6: under keepOpen = until-resolved, when `execute()` throws
synchronously or its awaited result rejects, the handler still releases the
disabled state (when it was taken) and still closes the notification as its
final step: the cleanup path of the `finally` block runs on both success and
failure. -/
theorem action_until_resolved_failure_still_closes :
    ∀ (dwp : Bool) (b : ExecBehavior),
      (b = .throwsSync ∨ b = .promiseRejects) →
      Ev.close ∈ (onClickTrace dwp .kUntilResolved b).1 ∧
      (onClickTrace dwp .kUntilResolved b).1.getLast? = some .close ∧
      (dwp = true → Ev.enable ∈ (onClickTrace dwp .kUntilResolved b).1) := by
  decide

/-- Witness for C6: the default until-resolved button (disableWhilePending
resolved to true) with a rejecting promise still re-enables and closes. -/
theorem action_until_resolved_failure_still_closes_witness :
    Ev.close ∈ (onClickTrace true .kUntilResolved .promiseRejects).1 ∧
    Ev.enable ∈ (onClickTrace true .kUntilResolved .promiseRejects).1 :=
  ⟨(action_until_resolved_failure_still_closes true .promiseRejects
      (Or.inr rfl)).1,
    (action_until_resolved_failure_still_closes true .promiseRejects
      (Or.inr rfl)).2.2 rfl⟩

/-- C10: in `makeActionButton`, for keepOpen not exactly true, a synchronous
throw of `execute()` still runs the `finally` block - the button is
re-enabled when it had been disabled and the notification is closed - while
the exception propagates (the handler promise rejects); in the part_002
`useActions` variant the wrapper has no try/finally, so there the same
synchronous throw propagates and the close is skipped. -/
theorem action_sync_throw_finally_vs_part002 :
    ∀ (dwp : Bool) (ko : KeepOpen), ko ≠ .kTrue →
      (Ev.close ∈ (onClickTrace dwp ko .throwsSync).1 ∧
        (onClickTrace dwp ko .throwsSync).2 = true ∧
        (dwp = true → Ev.enable ∈ (onClickTrace dwp ko .throwsSync).1)) ∧
      (Ev.close ∉ (wrapTrace ko .throwsSync).1 ∧
        (wrapTrace ko .throwsSync).2 = true) := by
  decide

/-- Witness for C10: with the default keepOpen (false) and a disabling
button, `makeActionButton` closes on a synchronous throw while the part_002
wrapper does not. -/
theorem action_sync_throw_finally_vs_part002_witness :
    Ev.close ∈ (onClickTrace true .kFalse .throwsSync).1 ∧
    Ev.close ∉ (wrapTrace .kFalse .throwsSync).1 :=
  ⟨(action_sync_throw_finally_vs_part002 true .kFalse (by decide)).1.1,
    (action_sync_throw_finally_vs_part002 true .kFalse (by decide)).2.1⟩


/-- An action descriptor as the callers and the test-suite supply it:
a keepOpen policy and an optional `disableAfterExecute` flag.  The repo test
file (packages/components/notification/__tests__/notification.test.tsx,
describe disableAfterExecute) passes `disableAfterExecute`; the spec gives it
the default `keepOpen !== true`. -/
structure ActionCfg where
  keepOpen : KeepOpen
  disableAfterExecute : Option Bool
deriving DecidableEq, Repr

/-- The disable flag `makeActionButton` actually resolves.  The source
destructures `const { keepOpen = false, disableWhilePending = keepOpen ===
until-resolved } = action`: the destructured property is named
`disableWhilePending`, so the `disableAfterExecute` field supplied by callers
and asserted by the test-suite is never consulted, and the flag resolves to
the default `keepOpen === until-resolved` for every test-suite input. -/
def resolvedDisableWhilePending (a : ActionCfg) : Bool :=
  a.keepOpen = .kUntilResolved

/-- Button state across repeated clicks: the reactive disabled prop and the
number of completed `execute()` invocations. -/
structure ClickState where
  disabled : Bool
  execCount : ℕ
deriving DecidableEq, Repr

/-- One click of an action button whose `execute()` returns synchronously,
in a burst of back-to-back clicks (no intervening macrotask or microtask, as
in the test-suite loop `for i in 0..N do button.trigger(click)`).
A disabled button does not dispatch its click handler.  Otherwise the handler
of `makeActionButton` runs: `disableIfNeeded`, `execute()`, and then - for
keepOpen other than until-resolved the `finally` runs synchronously too,
re-enabling the button before the next click; under until-resolved the
handler suspends at the await, so the button stays in its disabled state (set
when `dwp` is true) until a microtask can run, which is after the burst. -/
def clickOnceSync (dwp : Bool) (ko : KeepOpen) (s : ClickState) : ClickState :=
  if s.disabled then s
  else if ko = .kUntilResolved then
    { disabled := dwp, execCount := s.execCount + 1 }
  else
    { disabled := false, execCount := s.execCount + 1 }

/-- A burst of n back-to-back clicks starting from an enabled button. -/
def clicksSync (dwp : Bool) (ko : KeepOpen) (n : ℕ) : ClickState :=
  Nat.rec ⟨false, 0⟩ (fun _ s => clickOnceSync dwp ko s) n

/-- C7 evaluated at the failing input: for the action
{ keepOpen: false, disableAfterExecute: true } - and equally with
`disableAfterExecute` absent - `makeActionButton` resolves its disable flag
to false (the code reads a property named `disableWhilePending`, never
`disableAfterExecute`), the button is a NoopActionButton whose disabled prop
is never set, and a burst of 3 clicks runs `execute` 3 times, where the
claim, the spec (section 4.4) and the test-suite (notification.test.tsx,
describe disableAfterExecute, expecting exactly one call) require 1. -/
theorem action_disable_after_execute_ignored :
    resolvedDisableWhilePending ⟨.kFalse, some true⟩ = false ∧
    (clicksSync (resolvedDisableWhilePending ⟨.kFalse, some true⟩)
        .kFalse 3).execCount = 3 ∧
    resolvedDisableWhilePending ⟨.kFalse, none⟩ = false ∧
    (clicksSync (resolvedDisableWhilePending ⟨.kFalse, none⟩)
        .kFalse 3).execCount = 3 := by
  decide


/-!  Action registry (`useActions`, composables.ts lines 449-486; the filter
and reduce are identical in src/unnamed/part_002 lines 104-137).

The pipeline receives the caller-supplied action list and
1. filters out descriptors whose `execute` is not a function or whose `label`
   is not a non-empty string,
2. reduces the survivors into a plain JS object keyed by label: when
   `actions[label]` is falsy the action is stored (wrapped by
   `makeActionButton`), otherwise `debugWarn` naming the label fires and the
   action is dropped,
3. returns `Object.values` of that object.

We model a descriptor by whether `execute` is a function, its label (`none`
for a missing or non-string label), and a numeric identity for the `execute`
closure, and we model the stored entry by the pair (label, execute identity).
Two aspects of the plain-object accumulator are observable and must be
modelled exactly:
- the truthiness test `!actions[label]`: the accumulator `{}` inherits
  `Object.prototype`, so for a label naming one of its properties
  (`toString`, `constructor`, `__proto__`, ...) the lookup is truthy before
  anything was inserted - such labels are warned about and dropped on every
  occurrence, the first included;
- `Object.values` enumerates own properties in ECMA-262 order: keys that are
  array indices (canonical decimal strings with value below 2^32 - 1) first,
  in ascending numeric order, then the remaining string keys in insertion
  order. -/

/-- A caller-supplied action descriptor, as far as `useActions` inspects it. -/
structure RawAction where
  hasExecute : Bool
  label : Option String
  execId : ℕ
deriving DecidableEq, Repr

/-- The filter step: keep descriptors with a function `execute` and a
non-empty string label (`typeof action.execute === function && typeof
action.label === string && action.label`). -/
def validOf (l : List RawAction) : List (String × ℕ) :=
  l.filterMap fun a =>
    match a.label with
    | some lab =>
        if a.hasExecute ∧ lab ≠ "" then some (lab, a.execId) else none
    | none => none

/-- Own-property test of the accumulator object. -/
def hasKey : List (String × ℕ) → String → Bool
  | [], _ => false
  | (k, _) :: rest, lab => if k = lab then true else hasKey rest lab

/-- The property names of `Object.prototype` (ES2023, 13.2.5 and 20.1.3),
which the plain-object accumulator `{}` inherits. -/
def protoKeys : List String :=
  ["constructor", "hasOwnProperty", "isPrototypeOf", "propertyIsEnumerable",
    "toLocaleString", "toString", "valueOf", "__defineGetter__",
    "__defineSetter__", "__lookupGetter__", "__lookupSetter__", "__proto__"]

/-- Truthiness of `actions[label]` on the reduce accumulator: an own property
stored earlier, or a property inherited from `Object.prototype` - every
inherited value is truthy (they are functions, except the `__proto__`
accessor, which on `{}` yields `Object.prototype` itself). -/
def truthyProp (acc : List (String × ℕ)) (lab : String) : Bool :=
  hasKey acc lab || decide (lab ∈ protoKeys)

/-- The reduce step: an action whose label makes `actions[label]` falsy is
stored (own properties keep insertion order), any other occurrence produces a
`debugWarn` naming the label and is dropped.  In particular a label naming an
`Object.prototype` property is never stored and always warned about. -/
def reduceActions : List (String × ℕ) → List (String × ℕ) → List String →
    List (String × ℕ) × List String
  | [], acc, warns => (acc, warns)
  | (lab, e) :: rest, acc, warns =>
      if truthyProp acc lab then reduceActions rest acc (warns ++ [lab])
      else reduceActions rest (acc ++ [(lab, e)]) warns

/-- ASCII decimal digit test. -/
def isDigitChar (c : Char) : Bool := decide (48 ≤ c.toNat ∧ c.toNat ≤ 57)

/-- Numeric value of a decimal digit string. -/
def digitsToNat (l : List Char) : ℕ :=
  l.foldl (fun n c => n * 10 + (c.toNat - 48)) 0

/-- ECMA-262 array-index property key: a canonical decimal string (non-empty,
all digits, no leading zero except the string 0 itself) whose value is below
2^32 - 1. -/
def isArrayIndexKey (s : String) : Bool :=
  match s.data with
  | [] => false
  | c :: rest =>
      (c :: rest).all isDigitChar
        && (c != Char.ofNat 48 || rest.isEmpty)
        && decide (digitsToNat (c :: rest) + 1 < 2 ^ 32)

/-- Numeric value of an entry key, used to order array-index keys. -/
def keyNum (p : String × ℕ) : ℕ := digitsToNat p.1.data

/-- Insertion into a list sorted by ascending key value. -/
def insertByKeyNum (p : String × ℕ) :
    List (String × ℕ) → List (String × ℕ)
  | [] => [p]
  | q :: rest =>
      if keyNum p ≤ keyNum q then p :: q :: rest
      else q :: insertByKeyNum p rest

/-- Sort by ascending key value (insertion sort; array-index keys are
pairwise distinct canonical numerals, so ties cannot occur). -/
def sortByKeyNum : List (String × ℕ) → List (String × ℕ)
  | [] => []
  | p :: rest => insertByKeyNum p (sortByKeyNum rest)

/-- `Object.values` of the accumulator object: array-index keys first in
ascending numeric order, then the other keys in insertion order. -/
def jsObjectValues (acc : List (String × ℕ)) : List (String × ℕ) :=
  sortByKeyNum (acc.filter fun p => isArrayIndexKey p.1)
    ++ acc.filter fun p => ! isArrayIndexKey p.1

/-- The full `useActions` pipeline: the rendered action entries in the order
the component receives them, and the sequence of duplicate-label warnings. -/
def useActionsModel (l : List RawAction) : List (String × ℕ) × List String :=
  (jsObjectValues (reduceActions (validOf l) [] []).1,
    (reduceActions (validOf l) [] []).2)

/-- Modelled from the spec words (section 4.4 step 2) for the refinement
statement: first-occurrence-wins dedup that keeps input order. -/
def firstWins : List (String × ℕ) → List String → List (String × ℕ)
  | [], _ => []
  | (lab, e) :: rest, seen =>
      if lab ∈ seen then firstWins rest seen
      else (lab, e) :: firstWins rest (lab :: seen)

/-- Modelled from the spec words (section 4.4 step 2): one diagnostic naming
the duplicated label for every occurrence after the first. -/
def dupWarns : List (String × ℕ) → List String → List String
  | [], _ => []
  | (lab, _) :: rest, seen =>
      if lab ∈ seen then lab :: dupWarns rest seen
      else dupWarns rest (lab :: seen)

/-- Closed form of the entries the reduce stores: first-occurrence-wins in
input order, except that a label naming an `Object.prototype` property can
never be stored (proved equal to the reduce in `reduceActions_spec`). -/
def objFirstWins : List (String × ℕ) → List String → List (String × ℕ)
  | [], _ => []
  | (lab, e) :: rest, seen =>
      if lab ∈ seen ∨ lab ∈ protoKeys then objFirstWins rest seen
      else (lab, e) :: objFirstWins rest (lab :: seen)

/-- Closed form of the warnings the reduce emits: one per occurrence after
the first, and one per every occurrence of an `Object.prototype` name. -/
def objDupWarns : List (String × ℕ) → List String → List String
  | [], _ => []
  | (lab, _) :: rest, seen =>
      if lab ∈ seen ∨ lab ∈ protoKeys then lab :: objDupWarns rest seen
      else objDupWarns rest (lab :: seen)

/-- C5 counterexample, two independent failures.  First, for the valid
duplicated input
[ (label 2, execute id 0), (label 2, execute id 1), (label 1, execute id 2) ]
the dedup is first-wins with one diagnostic for label 2, but the surviving
actions do not keep first-occurrence order of the input: both labels are
array-index keys, so `Object.values` returns label 1 before label 2,
although label 2 occurred first.  Second, for two valid descriptors labelled
toString, no rendered action exists at all (not exactly one) and the
diagnostic fires for the first occurrence too: `actions[label]` finds the
inherited `Object.prototype.toString`, which is truthy, so even the first
occurrence is treated as a duplicate and dropped. -/
theorem use_actions_dedup_counterexample :
    (useActionsModel
        [⟨true, some "2", 0⟩, ⟨true, some "2", 1⟩, ⟨true, some "1", 2⟩]).1
      = [("1", 2), ("2", 0)] ∧
    (useActionsModel
        [⟨true, some "2", 0⟩, ⟨true, some "2", 1⟩, ⟨true, some "1", 2⟩]).2
      = ["2"] ∧
    (validOf
        [⟨true, some "2", 0⟩, ⟨true, some "2", 1⟩, ⟨true, some "1", 2⟩]).map
        Prod.fst
      = ["2", "2", "1"] ∧
    (useActionsModel
        [⟨true, some "2", 0⟩, ⟨true, some "2", 1⟩, ⟨true, some "1", 2⟩]).1.map
        Prod.fst
      ≠ ["2", "1"] ∧
    (useActionsModel
        [⟨true, some "toString", 0⟩, ⟨true, some "toString", 1⟩]).1 = [] ∧
    (useActionsModel
        [⟨true, some "toString", 0⟩, ⟨true, some "toString", 1⟩]).2
      = ["toString", "toString"] := by
  decide

lemma hasKey_eq_true_iff (acc : List (String × ℕ)) (lab : String) :
    hasKey acc lab = true ↔ lab ∈ acc.map Prod.fst := by
  induction acc with
  | nil => simp [hasKey]
  | cons p rest ih =>
      obtain ⟨k, e⟩ := p
      by_cases hk : k = lab
      · simp [hasKey, hk]
      · simp only [hasKey, if_neg hk, List.map_cons, List.mem_cons, ih]
        constructor
        · exact Or.inr
        · rintro (h | h)
          · exact absurd h.symm hk
          · exact h

lemma reduceActions_spec (vl : List (String × ℕ)) :
    ∀ (acc : List (String × ℕ)) (warns seen : List String),
      (∀ x, x ∈ seen ↔ x ∈ acc.map Prod.fst) →
      reduceActions vl acc warns
        = (acc ++ objFirstWins vl seen, warns ++ objDupWarns vl seen) := by
  induction vl with
  | nil =>
      intro acc warns seen hseen
      simp [reduceActions, objFirstWins, objDupWarns]
  | cons p rest ih =>
      obtain ⟨lab, e⟩ := p
      intro acc warns seen hseen
      by_cases hmem : lab ∈ seen ∨ lab ∈ protoKeys
      · have hk : truthyProp acc lab = true := by
          rcases hmem with h | h
          · have := (hasKey_eq_true_iff acc lab).2 ((hseen lab).1 h)
            simp [truthyProp, this]
          · simp [truthyProp, h]
        simp only [reduceActions, hk, if_true, objFirstWins, objDupWarns,
          if_pos hmem]
        rw [ih acc (warns ++ [lab]) seen hseen]
        simp
      · have hm1 : lab ∉ seen := fun h => hmem (Or.inl h)
        have hm2 : lab ∉ protoKeys := fun h => hmem (Or.inr h)
        have hk : truthyProp acc lab = false := by
          have h1 : hasKey acc lab = false := by
            by_contra h
            rw [Bool.not_eq_false] at h
            exact hm1 ((hseen lab).2 ((hasKey_eq_true_iff acc lab).1 h))
          simp [truthyProp, h1, hm2]
        have hseen' : ∀ x, x ∈ lab :: seen
            ↔ x ∈ (acc ++ [(lab, e)]).map Prod.fst := by
          intro x
          simp [List.mem_cons, hseen x, or_comm]
        simp only [reduceActions, hk, Bool.false_eq_true, if_false,
          objFirstWins, objDupWarns, if_neg hmem]
        rw [ih (acc ++ [(lab, e)]) warns (lab :: seen) hseen']
        simp

lemma useActionsModel_eq (l : List RawAction) :
    useActionsModel l
      = (jsObjectValues (objFirstWins (validOf l) []),
          objDupWarns (validOf l) []) := by
  have h := reduceActions_spec (validOf l) [] [] [] (by simp)
  simp [useActionsModel, h]

lemma objFirstWins_nodup (vl : List (String × ℕ)) :
    ∀ seen, ((objFirstWins vl seen).map Prod.fst).Nodup ∧
      ∀ x ∈ (objFirstWins vl seen).map Prod.fst, x ∉ seen := by
  induction vl with
  | nil => intro seen; simp [objFirstWins]
  | cons p rest ih =>
      obtain ⟨lab, e⟩ := p
      intro seen
      by_cases hmem : lab ∈ seen ∨ lab ∈ protoKeys
      · simpa [objFirstWins, hmem] using ih seen
      · have hm1 : lab ∉ seen := fun h => hmem (Or.inl h)
        have h := ih (lab :: seen)
        constructor
        · simp only [objFirstWins, if_neg hmem, List.map_cons,
            List.nodup_cons]
          refine ⟨fun hlab => ?_, h.1⟩
          exact (h.2 lab hlab) (List.mem_cons_self ..)
        · intro x hx
          simp only [objFirstWins, if_neg hmem, List.map_cons,
            List.mem_cons] at hx
          rcases hx with rfl | hx
          · exact hm1
          · intro hxs
            exact (h.2 x hx) (List.mem_cons_of_mem _ hxs)

lemma objFirstWins_subset (vl : List (String × ℕ)) :
    ∀ seen p, p ∈ objFirstWins vl seen → p ∈ vl := by
  induction vl with
  | nil => intro seen p hp; simp [objFirstWins] at hp
  | cons q rest ih =>
      obtain ⟨lab, e⟩ := q
      intro seen p hp
      by_cases hmem : lab ∈ seen ∨ lab ∈ protoKeys
      · simp only [objFirstWins, if_pos hmem] at hp
        exact List.mem_cons_of_mem _ (ih seen p hp)
      · simp only [objFirstWins, if_neg hmem, List.mem_cons] at hp
        rcases hp with rfl | hp
        · exact List.mem_cons_self ..
        · exact List.mem_cons_of_mem _ (ih (lab :: seen) p hp)

lemma objFirstWins_not_proto (vl : List (String × ℕ)) :
    ∀ seen p, p ∈ objFirstWins vl seen → p.1 ∉ protoKeys := by
  induction vl with
  | nil => intro seen p hp; simp [objFirstWins] at hp
  | cons q rest ih =>
      obtain ⟨lab, e⟩ := q
      intro seen p hp
      by_cases hmem : lab ∈ seen ∨ lab ∈ protoKeys
      · simp only [objFirstWins, if_pos hmem] at hp
        exact ih seen p hp
      · simp only [objFirstWins, if_neg hmem, List.mem_cons] at hp
        rcases hp with rfl | hp
        · exact fun h => hmem (Or.inr h)
        · exact ih (lab :: seen) p hp

lemma objFirstWins_eq_firstWins (vl : List (String × ℕ)) :
    ∀ seen, (∀ p ∈ vl, p.1 ∉ protoKeys) →
      objFirstWins vl seen = firstWins vl seen := by
  induction vl with
  | nil => intro seen _; rfl
  | cons q rest ih =>
      obtain ⟨lab, e⟩ := q
      intro seen h
      have hproto : lab ∉ protoKeys := h (lab, e) (List.mem_cons_self ..)
      have hrest : ∀ p ∈ rest, p.1 ∉ protoKeys :=
        fun p hp => h p (List.mem_cons_of_mem _ hp)
      by_cases hs : lab ∈ seen
      · rw [objFirstWins, firstWins, if_pos (Or.inl hs), if_pos hs]
        exact ih seen hrest
      · rw [objFirstWins, firstWins,
          if_neg (fun h => h.elim hs hproto), if_neg hs]
        rw [ih (lab :: seen) hrest]

lemma insertByKeyNum_perm (p : String × ℕ) (l : List (String × ℕ)) :
    List.Perm (insertByKeyNum p l) (p :: l) := by
  induction l with
  | nil => simp [insertByKeyNum]
  | cons q rest ih =>
      by_cases h : keyNum p ≤ keyNum q
      · simp [insertByKeyNum, h]
      · simp only [insertByKeyNum, if_neg h]
        exact (ih.cons q).trans (List.Perm.swap p q rest)

lemma sortByKeyNum_perm (l : List (String × ℕ)) :
    List.Perm (sortByKeyNum l) l := by
  induction l with
  | nil => simp [sortByKeyNum]
  | cons p rest ih =>
      exact (insertByKeyNum_perm p (sortByKeyNum rest)).trans (ih.cons p)

lemma jsObjectValues_perm (xs : List (String × ℕ)) :
    List.Perm (jsObjectValues xs) xs :=
  ((sortByKeyNum_perm _).append_right _).trans (List.filter_append_perm _ xs)

lemma filter_index_eq_nil (xs : List (String × ℕ))
    (h : ∀ p ∈ xs, isArrayIndexKey p.1 = false) :
    xs.filter (fun p => isArrayIndexKey p.1) = [] := by
  induction xs with
  | nil => rfl
  | cons p rest ih =>
      have hp := h p (List.mem_cons_self ..)
      rw [List.filter_cons, if_neg (by simp [hp])]
      exact ih fun q hq => h q (List.mem_cons_of_mem _ hq)

lemma filter_not_index_eq_self (xs : List (String × ℕ))
    (h : ∀ p ∈ xs, isArrayIndexKey p.1 = false) :
    xs.filter (fun p => ! isArrayIndexKey p.1) = xs := by
  induction xs with
  | nil => rfl
  | cons p rest ih =>
      have hp := h p (List.mem_cons_self ..)
      rw [List.filter_cons, if_pos (by simp [hp])]
      rw [ih fun q hq => h q (List.mem_cons_of_mem _ hq)]

lemma jsObjectValues_of_no_index (xs : List (String × ℕ))
    (h : ∀ p ∈ xs, isArrayIndexKey p.1 = false) :
    jsObjectValues xs = xs := by
  unfold jsObjectValues
  rw [filter_index_eq_nil xs h, filter_not_index_eq_self xs h]
  simp [sortByKeyNum]

lemma firstWins_subset (vl : List (String × ℕ)) :
    ∀ seen p, p ∈ firstWins vl seen → p ∈ vl := by
  induction vl with
  | nil => intro seen p hp; simp [firstWins] at hp
  | cons q rest ih =>
      obtain ⟨lab, e⟩ := q
      intro seen p hp
      by_cases hmem : lab ∈ seen
      · simp only [firstWins, if_pos hmem] at hp
        exact List.mem_cons_of_mem _ (ih seen p hp)
      · simp only [firstWins, if_neg hmem, List.mem_cons] at hp
        rcases hp with rfl | hp
        · exact List.mem_cons_self ..
        · exact List.mem_cons_of_mem _ (ih (lab :: seen) p hp)

/-- C5 amended: the valid descriptors whose labels do not collide with an
`Object.prototype` property name are deduplicated first-wins by label - for
every such duplicated label exactly one rendered action survives, built from
the first occurrence (so only the first occurrence execute can run), with one
diagnostic naming the label per later occurrence - and the rendered labels
are pairwise distinct.  A label naming an `Object.prototype` property
(`toString`, `constructor`, `__proto__`, ...) is never rendered at all and is
warned about on every occurrence, the first included.  The surviving actions
keep first-occurrence input order only up to the ECMA-262 own-property order
of `Object.values`: array-index labels (canonical decimal strings below
2^32 - 1) come first in ascending numeric order; when no surviving label is
an array-index string or a prototype property name, the first-occurrence
order of the spec is kept exactly. -/
theorem use_actions_dedup_amended (l : List RawAction) :
    (useActionsModel l).1 = jsObjectValues (objFirstWins (validOf l) []) ∧
    (useActionsModel l).2 = objDupWarns (validOf l) [] ∧
    ((useActionsModel l).1.map Prod.fst).Nodup ∧
    (∀ p ∈ (useActionsModel l).1, p.1 ∉ protoKeys) ∧
    ((∀ p ∈ validOf l, isArrayIndexKey p.1 = false ∧ p.1 ∉ protoKeys) →
      (useActionsModel l).1 = firstWins (validOf l) []) := by
  have he := useActionsModel_eq l
  refine ⟨by rw [he], by rw [he], ?_, ?_, ?_⟩
  · have hnodup := (objFirstWins_nodup (validOf l) []).1
    have hperm :=
      (jsObjectValues_perm (objFirstWins (validOf l) [])).map Prod.fst
    rw [he]
    exact hperm.nodup_iff.2 hnodup
  · intro p hp
    rw [he] at hp
    have hp2 : p ∈ objFirstWins (validOf l) [] :=
      ((jsObjectValues_perm (objFirstWins (validOf l) [])).mem_iff).1 hp
    exact objFirstWins_not_proto (validOf l) [] p hp2
  · intro h
    rw [he]
    show jsObjectValues (objFirstWins (validOf l) []) = _
    rw [objFirstWins_eq_firstWins (validOf l) [] (fun p hp => (h p hp).2)]
    apply jsObjectValues_of_no_index
    intro p hp
    exact (h p (firstWins_subset (validOf l) [] p hp)).1

/-- Witness for the amended C5: a duplicated input with plain labels (not
numeric, not prototype names) keeps first-occurrence order exactly. -/
theorem use_actions_dedup_amended_witness :
    (useActionsModel
        [⟨true, some "a", 0⟩, ⟨true, some "a", 1⟩, ⟨true, some "b", 2⟩]).1
      = firstWins
          (validOf [⟨true, some "a", 0⟩, ⟨true, some "a", 1⟩,
            ⟨true, some "b", 2⟩]) [] :=
  (use_actions_dedup_amended
      [⟨true, some "a", 0⟩, ⟨true, some "a", 1⟩, ⟨true, some "b", 2⟩]).2.2.2.2
    (by decide)

end Notification
